import Mathlib

/-!
# Verification of `bin/diff.py` (reGRR regression-output comparison tool)

Shallow embedding of the manifest parser (`MatList.__init__`) and the
comparison replayer (`MatList.compare`) of `src/bin/diff.py`, together with
theorems settling the specification claims.

Modelling conventions:
* Python floats are modelled as rationals (`ℚ`); the numeric code only adds,
  subtracts, takes absolute values, divides and compares, except for
  `np.std` whose square root is never inspected by any claim, so events carry
  the variance (`np.std` squared) instead.
* A manifest file is a list of its lines (newline terminators already
  removed); `file.readline()` of an empty file gives the empty string.
* The filesystem is a structure of two functions: `isFile` models
  `os.path.isfile`, and `load` models `load_mat(path).flatten()`, returning
  `none` when loading or flattening raises (bad format, `mat()` returning
  `None`, ...).
* `print` calls are modelled as an accumulated list of `Event`s; writes via
  `cv2.FileStorage(..., FILE_STORAGE_WRITE)` as an accumulated list of
  `Write`s.  `os.makedirs(..., exist_ok=True)` always succeeds and has no
  other observable effect, so it is not modelled.
* In the source, `diff_file = os.path.join(diff_dir, mat_name + self.ext),`
  ends in a comma, so `diff_file` is a 1-tuple; this is kept faithfully via
  `PyPathArg` below.
-/

/-- The characters removed by Python's `str.strip()` (ASCII whitespace). -/
def isPySpace (c : Char) : Bool :=
  c = ' ' || c = '\t' || c = '\n' || c = '\x0d' || c = '\x0b' || c = '\x0c'

/-- Python `str.strip()` on the underlying character list. -/
def stripChars (l : List Char) : List Char :=
  ((l.dropWhile isPySpace).reverse.dropWhile isPySpace).reverse

/-- Python `str.strip()`. -/
def pyStrip (s : String) : String :=
  String.mk (stripChars s.data)

/-- Whether a path string starts with `/` (is absolute). -/
def headIsSlash (s : String) : Bool :=
  match s.data with
  | [] => false
  | c :: _ => c = '/'

/-- Whether a path string ends with `/`. -/
def lastIsSlash (s : String) : Bool :=
  match s.data.getLast? with
  | some c => c = '/'
  | none => false

/-- One step of `os.path.join` (POSIX): an absolute component resets the
result, otherwise a `/` separator is inserted unless already present. -/
def osJoin2 (a b : String) : String :=
  if headIsSlash b then b
  else if a = "" || lastIsSlash a then a ++ b
  else a ++ "/" ++ b

/-- `os.path.join(p, *rest)` (POSIX semantics, no drive letters). -/
def osPathJoin : List String → String
  | [] => ""
  | p :: ps => ps.foldl osJoin2 p

/-- The per-line action records built by `MatList.__init__`
(`{'type': ..., 'name': ...}`); the tag is the raw integer constant used by
the source, `name` is `''` where the source omits the key. -/
structure PyAction where
  type : Nat
  name : String
  deriving DecidableEq, Repr

/-- `MatList.ENTER_SCOPE`. -/
def ENTER_SCOPE : Nat := 0
/-- `MatList.EXIT_SCOPE`. -/
def EXIT_SCOPE : Nat := 1
/-- `MatList.SAVE_MAT`. -/
def SAVE_MAT : Nat := 2

/-- The loop body of `MatList.__init__`: strip the line, skip it when empty,
and append one action to `flow` classified by the first character
(`-` exit, `+` enter, otherwise a matrix save). -/
def buildFlow : List PyAction → List String → List PyAction
  | flow, [] => flow
  | flow, l :: ls =>
    match (pyStrip l).data with
    | [] => buildFlow flow ls
    | c :: cs =>
      if c = '-' then
        buildFlow (flow ++ [⟨EXIT_SCOPE, ""⟩]) ls
      else if c = '+' then
        buildFlow (flow ++ [⟨ENTER_SCOPE, pyStrip (String.mk cs)⟩]) ls
      else
        buildFlow (flow ++ [⟨SAVE_MAT, pyStrip (String.mk (c :: cs))⟩]) ls

/-- The state built by `MatList.__init__`: the extension from the first line
and the ordered action flow from the remaining lines. -/
structure MatList where
  ext : String
  flow : List PyAction
  deriving DecidableEq, Repr

/-- `MatList.__init__` on the manifest's lines: `readline().strip()` gives
the extension (the empty string for an empty file), the remaining lines
build `flow`. -/
def MatList.ofLines : List String → MatList
  | [] => ⟨"", []⟩
  | first :: rest => ⟨pyStrip first, buildFlow [] rest⟩

/-- The filesystem visible to `MatList.compare`: `isFile` models
`os.path.isfile`; `load p` models `load_mat(p).flatten()` as a flat rational
vector, `none` when loading/flattening raises. -/
structure FS where
  isFile : String → Bool
  load : String → Option (List ℚ)

/-- `np.abs` on one rational. -/
def qAbs (x : ℚ) : ℚ := if x < 0 then -x else x

/-- Binary minimum on rationals (`np.min` reduction step). -/
def qMin (x y : ℚ) : ℚ := if x ≤ y then x else y

/-- Binary maximum on rationals (`np.max` reduction step). -/
def qMax (x y : ℚ) : ℚ := if x ≤ y then y else x

/-- `np.abs(m2 - m1)` on 1-D arrays, with numpy broadcasting: defined when
the lengths match or either side has exactly one element, otherwise the
subtraction raises `ValueError` (`none`). -/
def npAbsDiff (m2 m1 : List ℚ) : Option (List ℚ) :=
  if m1.length = m2.length then
    some ((List.zipWith (fun b a => b - a) m2 m1).map qAbs)
  else if h : m1.length = 1 then
    some (m2.map (fun b => qAbs (b - m1.head (by intro hn; simp [hn] at h))))
  else if h : m2.length = 1 then
    some (m1.map (fun a => qAbs (m2.head (by intro hn; simp [hn] at h) - a)))
  else
    none

/-- `np.average` (mean). -/
def npAverage (l : List ℚ) : ℚ := l.sum / l.length

/-- Insertion step for sorting rationals ascending. -/
def qInsert (x : ℚ) : List ℚ → List ℚ
  | [] => [x]
  | y :: ys => if x ≤ y then x :: y :: ys else y :: qInsert x ys

/-- Ascending sort of rationals (what `np.median` sorts internally). -/
def qSort : List ℚ → List ℚ
  | [] => []
  | x :: xs => qInsert x (qSort xs)

/-- `np.median`: middle element of the sorted data, or the mean of the two
middle elements for even length. -/
def npMedian (l : List ℚ) : ℚ :=
  let s := qSort l
  let n := s.length
  if n % 2 = 1 then s.getD (n / 2) 0
  else (s.getD (n / 2 - 1) 0 + s.getD (n / 2) 0) / 2

/-- The square of `np.std` (population variance); the source prints
`std = √(npVariance diff)`, and no claim inspects the value. -/
def npVariance (l : List ℚ) : ℚ :=
  npAverage (l.map (fun x => (x - npAverage l) * (x - npAverage l)))

/-- The classification implied by the branch structure at the bottom of the
`SAVE_MAT` case: `d < 0.001` green (identical), else `d < 10.0` yellow
(minor), else red (major). -/
inductive Classification
  | Identical
  | Minor
  | Major
  deriving DecidableEq, Repr

/-- The source's nested conditionals on the L1 distance `d`. -/
def classify (d : ℚ) : Classification :=
  if d < 1 / 1000 then .Identical
  else if d < 10 then .Minor
  else .Major

/-- One `print` call of `MatList.compare`.  `scope` is the white
`name + "/"` line at the current indentation depth; `identical` the green
result line; `minor`/`major` the yellow/red result lines carrying
`d, min, max, avg, median` and the variance (`std` squared); `compareError`
the `Error when comparing "relpath": "e".` line; `missing` the
`Cannot find file matrices` line naming both candidate paths. -/
inductive Event
  | scope (depth : Nat) (name : String)
  | identical (depth : Nat) (name : String) (d : ℚ)
  | minor (depth : Nat) (name : String) (d mn mx avg med variance : ℚ)
  | major (depth : Nat) (name : String) (d mn mx avg med variance : ℚ)
  | compareError (relPath : String)
  | missing (path1 path2 : String)
  deriving DecidableEq, Repr

/-- A completed `cv2.FileStorage` write: target path and the written array. -/
structure Write where
  path : String
  data : List ℚ
  deriving DecidableEq, Repr

/-- The value passed to `cv2.FileStorage(...)` as filename.  The source's
trailing comma (`diff_file = os.path.join(...),`) makes it a 1-tuple. -/
inductive PyPathArg
  | str (s : String)
  | tuple (elems : List String)
  deriving DecidableEq, Repr

/-- Opening `cv2.FileStorage(filename, FILE_STORAGE_WRITE)`: the binding
only converts `str` filenames; any other type raises `TypeError`. -/
def fileStorageOpenWrite : PyPathArg → Option String
  | .str s => some s
  | .tuple _ => none

/-- The candidate path for one root: `os.path.join(root, *scopes, name + ext)`. -/
def entryPath (root : String) (scopes : List String) (name ext : String) : String :=
  osPathJoin (root :: (scopes ++ [name ++ ext]))

/-- The path printed by the per-entry error handler:
`os.path.join(*scopes, mat_name + self.ext)`. -/
def relPathOf (scopes : List String) (name ext : String) : String :=
  osPathJoin (scopes ++ [name ++ ext])

/-- The body of the `try` block once both matrices are loaded and
flattened: broadcasted absolute difference, L1 distance, stats,
classification, artifact write attempt; every raise is caught and turned
into the per-entry error line over `relPath`. -/
def tryCompare (tmp1 ext : String) (scopes : List String) (name : String)
    (m1 m2 : List ℚ) : List Event × List Write :=
  match npAbsDiff m2 m1 with
  | none =>
    -- `m2 - m1` raises ValueError (incompatible shapes); caught.
    ([.compareError (relPathOf scopes name ext)], [])
  | some diff =>
    match diff with
    | [] =>
      -- `np.min` of a zero-size array raises ValueError; caught.
      ([.compareError (relPathOf scopes name ext)], [])
    | x :: xs =>
      let d := (x :: xs).sum
      let mn := xs.foldl qMin x
      let mx := xs.foldl qMax x
      let avg := npAverage (x :: xs)
      let med := npMedian (x :: xs)
      let variance := npVariance (x :: xs)
      match classify d with
      | .Identical => ([.identical scopes.length name d], [])
      | cls =>
        let line := match cls with
          | .Minor => Event.minor scopes.length name d mn mx avg med variance
          | _ => Event.major scopes.length name d mn mx avg med variance
        let diff_dir := osPathJoin (tmp1 :: "diff" :: scopes)
        let diff_file : PyPathArg := .tuple [osPathJoin [diff_dir, name ++ ext]]
        match fileStorageOpenWrite diff_file with
        | some w => ([line], [⟨w, diff⟩])
        | none =>
          -- TypeError from the tuple filename; caught by the same handler.
          ([line, .compareError (relPathOf scopes name ext)], [])

/-- The `SAVE_MAT` branch of `MatList.compare`, for one entry: path
resolution, existence check, then the `try` block. -/
def stepSave (fs : FS) (tmp1 tmp2 ext : String) (scopes : List String)
    (name : String) : List Event × List Write :=
  let p1 := entryPath tmp1 scopes name ext
  let p2 := entryPath tmp2 scopes name ext
  if fs.isFile p1 && fs.isFile p2 then
    match fs.load p1, fs.load p2 with
    | some m1, some m2 => tryCompare tmp1 ext scopes name m1 m2
    | _, _ =>
      -- load_mat / flatten raised; caught.
      ([.compareError (relPathOf scopes name ext)], [])
  else
    ([.missing p1 p2], [])

/-- A fatal, uncaught exception of the replay loop: `scopes.pop()` on an
empty list (`IndexError`), or the final `raise Exception("Unknown action
type: ...")`. -/
inductive Fatal
  | underflow
  | unknownType (t : Nat)
  deriving DecidableEq, Repr

/-- The replay loop of `MatList.compare` over the remaining actions, carrying
the scope stack; returns the final stack, the printed events and the
completed writes, or the fatal exception. -/
def replayAux (fs : FS) (tmp1 tmp2 ext : String) :
    List String → List PyAction → Except Fatal (List String × List Event × List Write)
  | scopes, [] => .ok (scopes, [], [])
  | scopes, a :: rest =>
    if a.type = ENTER_SCOPE then
      match replayAux fs tmp1 tmp2 ext (scopes ++ [a.name]) rest with
      | .ok (s, evs, ws) => .ok (s, .scope scopes.length a.name :: evs, ws)
      | .error e => .error e
    else if a.type = EXIT_SCOPE then
      match scopes with
      | [] => .error .underflow
      | _ :: _ => replayAux fs tmp1 tmp2 ext scopes.dropLast rest
    else if a.type = SAVE_MAT then
      let (evs, ws) := stepSave fs tmp1 tmp2 ext scopes a.name
      match replayAux fs tmp1 tmp2 ext scopes rest with
      | .ok (s, evs2, ws2) => .ok (s, evs ++ evs2, ws ++ ws2)
      | .error e => .error e
    else
      .error (.unknownType a.type)

/-- Decidable equality for `Except` results, for evaluating the replayer on
concrete inputs. -/
instance {ε α : Type} [DecidableEq ε] [DecidableEq α] : DecidableEq (Except ε α) :=
  fun x y =>
    match x, y with
    | .ok a, .ok b =>
      if h : a = b then .isTrue (by rw [h]) else .isFalse (by simp [h])
    | .error a, .error b =>
      if h : a = b then .isTrue (by rw [h]) else .isFalse (by simp [h])
    | .ok _, .error _ => .isFalse (by simp)
    | .error _, .ok _ => .isFalse (by simp)

/-- `MatList.compare(tmp_dir1, tmp_dir2)`: replay the whole flow starting
from an empty scope stack. -/
def MatList.compare (m : MatList) (fs : FS) (tmp1 tmp2 : String) :
    Except Fatal (List Event × List Write) :=
  match replayAux fs tmp1 tmp2 m.ext [] m.flow with
  | .ok (_, evs, ws) => .ok (evs, ws)
  | .error e => .error e

/-! ## Specification-level definitions

These are written from the spec's words, to be compared with the embedded
source; each is used by exactly the claims whose text it transcribes. -/

/-- The claim's per-line classification of a manifest line ("skips every
subsequent line that is blank after trimming, and classifies every
remaining line by its first character"): `-` gives ExitScope with the rest
ignored, `+` gives EnterScope named by the trimmed remainder, anything else
gives SaveEntry named by the entire trimmed line. -/
def specLineAction (l : String) : Option PyAction :=
  let t := pyStrip l
  match t.data with
  | [] => none
  | c :: cs =>
    if c = '-' then some ⟨EXIT_SCOPE, ""⟩
    else if c = '+' then some ⟨ENTER_SCOPE, pyStrip (String.mk cs)⟩
    else some ⟨SAVE_MAT, t⟩

/-- One spec-level stack step: push on EnterScope, pop on ExitScope. -/
def specStep (s : List String) (a : PyAction) : List String :=
  if a.type = ENTER_SCOPE then s ++ [a.name]
  else if a.type = EXIT_SCOPE then s.dropLast
  else s

/-- The scope-stack contents after replaying a list of actions starting
from a given stack, written from the spec ("push on EnterScope, pop on
ExitScope"). -/
def specScopesFrom (s : List String) (flow : List PyAction) : List String :=
  flow.foldl specStep s

/-- The scope-stack contents at the moment an action is replayed: the fold
of the preceding actions over the empty stack. -/
def specScopes (flow : List PyAction) : List String :=
  specScopesFrom [] flow

/-- Number of `EnterScope` actions in a flow. -/
def enterCount (flow : List PyAction) : Nat :=
  flow.countP (fun a => a.type = ENTER_SCOPE)

/-- Number of `ExitScope` actions in a flow. -/
def exitCount (flow : List PyAction) : Nat :=
  flow.countP (fun a => a.type = EXIT_SCOPE)

/-- The spec's balance condition: no prefix of the action sequence has more
`ExitScope` than `EnterScope` actions. -/
def balanced (flow : List PyAction) : Prop :=
  ∀ n, exitCount (flow.take n) ≤ enterCount (flow.take n)

/-- All action tags in a flow are among the three constants. -/
def validFlow (flow : List PyAction) : Prop :=
  ∀ a ∈ flow, a.type = ENTER_SCOPE ∨ a.type = EXIT_SCOPE ∨ a.type = SAVE_MAT

/-! ## Concrete inputs used by witnesses and counterexamples -/

/-- A filesystem with no files at all. -/
def fsNoFiles : FS where
  isFile := fun _ => false
  load := fun _ => none

/-- The spec's end-to-end scenario: `a.yml` is `[0,0]` in A and `[5,5]` in B. -/
def fsMajorPair : FS where
  isFile := fun p => p = "A/a.yml" || p = "B/a.yml"
  load := fun p =>
    if p = "A/a.yml" then some [0, 0]
    else if p = "B/a.yml" then some [5, 5]
    else none

/-- `a.yml` is the single-element `[5]` in A and `[5,5]` in B: mismatched
element counts that numpy broadcasting compares without raising. -/
def fsBroadcastSame : FS where
  isFile := fun p => p = "A/a.yml" || p = "B/a.yml"
  load := fun p =>
    if p = "A/a.yml" then some [5]
    else if p = "B/a.yml" then some [5, 5]
    else none

/-- `a.yml` is `[0]` in A and `[3,4]` in B: mismatched element counts,
broadcast distance `7`. -/
def fsBroadcastFar : FS where
  isFile := fun p => p = "A/a.yml" || p = "B/a.yml"
  load := fun p =>
    if p = "A/a.yml" then some [0]
    else if p = "B/a.yml" then some [3, 4]
    else none

/-- `a.yml` loads as the empty array on both sides. -/
def fsEmptyPair : FS where
  isFile := fun p => p = "A/a.yml" || p = "B/a.yml"
  load := fun p =>
    if p = "A/a.yml" || p = "B/a.yml" then some [] else none

/-- `a.yml` loads as `[1,2]` on both sides. -/
def fsIdentPair : FS where
  isFile := fun p => p = "A/a.yml" || p = "B/a.yml"
  load := fun p =>
    if p = "A/a.yml" || p = "B/a.yml" then some [1, 2] else none

/-! ## Equation lemmas for the replay loop -/

theorem replayAux_nil (fs : FS) (tmp1 tmp2 ext : String) (scopes : List String) :
    replayAux fs tmp1 tmp2 ext scopes [] = .ok (scopes, [], []) := rfl

theorem replayAux_enter (fs : FS) (tmp1 tmp2 ext : String) (scopes : List String)
    (a : PyAction) (rest : List PyAction) (h : a.type = ENTER_SCOPE) :
    replayAux fs tmp1 tmp2 ext scopes (a :: rest) =
      match replayAux fs tmp1 tmp2 ext (scopes ++ [a.name]) rest with
      | .ok (s, evs, ws) => .ok (s, .scope scopes.length a.name :: evs, ws)
      | .error e => .error e := by
  simp [replayAux, h]

theorem replayAux_exit_nil (fs : FS) (tmp1 tmp2 ext : String)
    (a : PyAction) (rest : List PyAction) (h : a.type = EXIT_SCOPE) :
    replayAux fs tmp1 tmp2 ext [] (a :: rest) = .error .underflow := by
  simp [replayAux, h, EXIT_SCOPE, ENTER_SCOPE]

theorem replayAux_exit_cons (fs : FS) (tmp1 tmp2 ext : String) (s0 : String)
    (ss : List String) (a : PyAction) (rest : List PyAction) (h : a.type = EXIT_SCOPE) :
    replayAux fs tmp1 tmp2 ext (s0 :: ss) (a :: rest) =
      replayAux fs tmp1 tmp2 ext (s0 :: ss).dropLast rest := by
  simp [replayAux, h, EXIT_SCOPE, ENTER_SCOPE]

theorem replayAux_save (fs : FS) (tmp1 tmp2 ext : String) (scopes : List String)
    (a : PyAction) (rest : List PyAction) (h : a.type = SAVE_MAT) :
    replayAux fs tmp1 tmp2 ext scopes (a :: rest) =
      match replayAux fs tmp1 tmp2 ext scopes rest with
      | .ok (s, evs, ws) =>
        .ok (s, (stepSave fs tmp1 tmp2 ext scopes a.name).1 ++ evs,
          (stepSave fs tmp1 tmp2 ext scopes a.name).2 ++ ws)
      | .error e => .error e := by
  simp [replayAux, h, SAVE_MAT, ENTER_SCOPE, EXIT_SCOPE]

/-! ## Properties of `str.strip` -/

theorem dropWhile_head_false (p : Char → Bool) :
    ∀ (l : List Char) (c : Char) (cs : List Char),
      l.dropWhile p = c :: cs → p c = false := by
  intro l
  induction l with
  | nil => intro c cs h; simp [List.dropWhile] at h
  | cons a as ih =>
    intro c cs h
    by_cases hp : p a
    · rw [List.dropWhile_cons_of_pos hp] at h
      exact ih c cs h
    · rw [List.dropWhile_cons_of_neg hp] at h
      cases h
      simpa using hp

theorem getLast?_dropWhile (p : Char → Bool) :
    ∀ (w : List Char), w.dropWhile p ≠ [] →
      (w.dropWhile p).getLast? = w.getLast? := by
  intro w
  induction w with
  | nil => intro h; simp [List.dropWhile] at h
  | cons a as ih =>
    intro h
    by_cases hp : p a
    · rw [List.dropWhile_cons_of_pos hp] at h ⊢
      have has : as ≠ [] := by
        intro hn; rw [hn] at h; simp [List.dropWhile] at h
      obtain ⟨b, bs, rfl⟩ := List.exists_cons_of_ne_nil has
      rw [List.getLast?_cons_cons]
      exact ih h
    · rw [List.dropWhile_cons_of_neg hp]

theorem dropWhile_eq_self_of_head (p : Char → Bool) (c : Char) (cs : List Char)
    (h : p c = false) : List.dropWhile p (c :: cs) = c :: cs :=
  List.dropWhile_cons_of_neg (by simp [h])

theorem stripChars_idem (l : List Char) : stripChars (stripChars l) = stripChars l := by
  unfold stripChars
  cases hz : ((l.dropWhile isPySpace).reverse.dropWhile isPySpace) with
  | nil => simp [hz, List.dropWhile]
  | cons c cs =>
    have hynil : (l.dropWhile isPySpace) ≠ [] := by
      intro hn
      rw [hn] at hz
      simp [List.dropWhile] at hz
    obtain ⟨y0, ys, hy⟩ := List.exists_cons_of_ne_nil hynil
    have hy0 : isPySpace y0 = false := dropWhile_head_false isPySpace _ y0 ys hy
    have hc : isPySpace c = false :=
      dropWhile_head_false isPySpace (l.dropWhile isPySpace).reverse c cs hz
    -- the last element of the stripped list is the first kept element `y0`
    have hlast : (c :: cs).getLast? = some y0 := by
      rw [← hz, getLast?_dropWhile isPySpace _ (by rw [hz]; simp),
        List.getLast?_reverse, hy]
      rfl
    -- so a second trailing strip removes nothing
    have houter : List.dropWhile isPySpace (c :: cs).reverse = (c :: cs).reverse := by
      rcases hrev : (c :: cs).reverse with _ | ⟨d, ds⟩
      · simp at hrev
      · have hd : d = y0 := by
          have h1 : (c :: cs).reverse.head? = (c :: cs).getLast? :=
            List.head?_reverse (c :: cs)
          rw [hrev, hlast] at h1
          simpa using h1
        subst hd
        exact dropWhile_eq_self_of_head isPySpace d ds hy0
    -- and a second leading strip removes nothing either
    rw [houter, List.reverse_reverse, dropWhile_eq_self_of_head isPySpace c cs hc]

theorem pyStrip_idem (s : String) : pyStrip (pyStrip s) = pyStrip s := by
  unfold pyStrip
  rw [stripChars_idem]

/-! ## Parser lemmas -/

theorem buildFlow_append (ls : List String) :
    ∀ acc : List PyAction, buildFlow acc ls = acc ++ buildFlow [] ls := by
  induction ls with
  | nil => intro acc; simp [buildFlow]
  | cons l ls ih =>
    intro acc
    have step : ∀ x : PyAction,
        buildFlow (acc ++ [x]) ls = acc ++ buildFlow ([] ++ [x]) ls := by
      intro x
      rw [List.nil_append, ih (acc ++ [x]), ih [x], List.append_assoc]
    cases h : (pyStrip l).data with
    | nil => simp only [buildFlow, h]; exact ih acc
    | cons c cs =>
      simp only [buildFlow, h]
      split_ifs
      · exact step _
      · exact step _
      · exact step _

theorem buildFlow_eq_filterMap (ls : List String) :
    buildFlow [] ls = ls.filterMap specLineAction := by
  induction ls with
  | nil => simp [buildFlow]
  | cons l ls ih =>
    cases h : (pyStrip l).data with
    | nil =>
      have hs : specLineAction l = none := by
        simp [specLineAction, h]
      simp only [buildFlow, h, List.filterMap_cons, hs]
      exact ih
    | cons c cs =>
      have hmk : String.mk (c :: cs) = pyStrip l := by
        rw [← h]
      have step : ∀ x : PyAction,
          buildFlow ([] ++ [x]) ls = x :: List.filterMap specLineAction ls := by
        intro x
        rw [List.nil_append, buildFlow_append ls [x], ih]
        simp
      by_cases hm : c = '-'
      · have hs : specLineAction l = some ⟨EXIT_SCOPE, ""⟩ := by
          simp [specLineAction, h, hm]
        simp only [buildFlow, h, if_pos hm, List.filterMap_cons, hs]
        exact step _
      · by_cases hp : c = '+'
        · have hs : specLineAction l = some ⟨ENTER_SCOPE, pyStrip (String.mk cs)⟩ := by
            simp [specLineAction, h, hm, hp]
          simp only [buildFlow, h, if_neg hm, if_pos hp, List.filterMap_cons, hs]
          exact step _
        · have hname : pyStrip (String.mk (c :: cs)) = String.mk (c :: cs) := by
            rw [hmk, pyStrip_idem]
          have hs : specLineAction l = some ⟨SAVE_MAT, String.mk (c :: cs)⟩ := by
            simp only [specLineAction, h, if_neg hm, if_neg hp]
            rw [← hmk]
          simp only [buildFlow, h, if_neg hm, if_neg hp, List.filterMap_cons, hs, hname]
          exact step _

theorem specLineAction_valid (l : String) (a : PyAction)
    (h : specLineAction l = some a) :
    a.type = ENTER_SCOPE ∨ a.type = EXIT_SCOPE ∨ a.type = SAVE_MAT := by
  simp only [specLineAction] at h
  rcases hd : (pyStrip l).data with _ | ⟨c, cs⟩ <;> rw [hd] at h <;> dsimp only at h
  · simp at h
  · by_cases hm : c = '-'
    · rw [if_pos hm] at h
      cases h
      simp
    · rw [if_neg hm] at h
      by_cases hp : c = '+'
      · rw [if_pos hp] at h
        cases h
        simp
      · rw [if_neg hp] at h
        cases h
        simp

theorem ofLines_valid (lines : List String) :
    validFlow (MatList.ofLines lines).flow := by
  intro a ha
  cases lines with
  | nil => simp [MatList.ofLines] at ha
  | cons first rest =>
    simp only [MatList.ofLines, buildFlow_eq_filterMap] at ha
    obtain ⟨l, _, hl⟩ := List.mem_filterMap.mp ha
    exact specLineAction_valid l a hl

/-! ## Further equation lemmas and invariants of the replay loop -/

theorem replayAux_unknown (fs : FS) (tmp1 tmp2 ext : String) (scopes : List String)
    (a : PyAction) (rest : List PyAction) (h0 : ¬ a.type = ENTER_SCOPE)
    (h1 : ¬ a.type = EXIT_SCOPE) (h2 : ¬ a.type = SAVE_MAT) :
    replayAux fs tmp1 tmp2 ext scopes (a :: rest) = .error (.unknownType a.type) := by
  simp [replayAux, h0, h1, h2]

theorem replayAux_append_ok (fs : FS) (tmp1 tmp2 ext : String) :
    ∀ (l1 l2 : List PyAction) (scopes s : List String) (evs : List Event)
      (ws : List Write),
      replayAux fs tmp1 tmp2 ext scopes l1 = .ok (s, evs, ws) →
      replayAux fs tmp1 tmp2 ext scopes (l1 ++ l2) =
        match replayAux fs tmp1 tmp2 ext s l2 with
        | .ok (s', evs', ws') => .ok (s', evs ++ evs', ws ++ ws')
        | .error e => .error e := by
  intro l1
  induction l1 with
  | nil =>
    intro l2 scopes s evs ws h
    rw [replayAux_nil] at h
    simp only [Except.ok.injEq, Prod.mk.injEq] at h
    obtain ⟨hs, he, hw⟩ := h
    subst hs
    subst he
    subst hw
    cases hr : replayAux fs tmp1 tmp2 ext scopes l2 with
    | ok r => rcases r with ⟨s', evs', ws'⟩; simp [hr]
    | error e => simp [hr]
  | cons a l1 ih =>
    intro l2 scopes s evs ws h
    by_cases h0 : a.type = ENTER_SCOPE
    · rw [replayAux_enter fs tmp1 tmp2 ext scopes a l1 h0] at h
      cases hr : replayAux fs tmp1 tmp2 ext (scopes ++ [a.name]) l1 with
      | ok r =>
        rcases r with ⟨s1, evs1, ws1⟩
        rw [hr] at h
        simp only [Except.ok.injEq, Prod.mk.injEq] at h
        obtain ⟨hs, he, hw⟩ := h
        subst hs
        subst he
        subst hw
        rw [List.cons_append, replayAux_enter fs tmp1 tmp2 ext scopes a (l1 ++ l2) h0,
          ih l2 (scopes ++ [a.name]) s1 evs1 ws1 hr]
        cases hr2 : replayAux fs tmp1 tmp2 ext s1 l2 with
        | ok r2 => rcases r2 with ⟨s', evs', ws'⟩; simp
        | error e => simp
      | error e => rw [hr] at h; cases h
    · by_cases h1 : a.type = EXIT_SCOPE
      · cases scopes with
        | nil => rw [replayAux_exit_nil fs tmp1 tmp2 ext a l1 h1] at h; cases h
        | cons s0 ss =>
          rw [replayAux_exit_cons fs tmp1 tmp2 ext s0 ss a l1 h1] at h
          rw [List.cons_append, replayAux_exit_cons fs tmp1 tmp2 ext s0 ss a (l1 ++ l2) h1]
          exact ih l2 (s0 :: ss).dropLast s evs ws h
      · by_cases h2 : a.type = SAVE_MAT
        · rw [replayAux_save fs tmp1 tmp2 ext scopes a l1 h2] at h
          cases hr : replayAux fs tmp1 tmp2 ext scopes l1 with
          | ok r =>
            rcases r with ⟨s1, evs1, ws1⟩
            rw [hr] at h
            simp only [Except.ok.injEq, Prod.mk.injEq] at h
            obtain ⟨hs, he, hw⟩ := h
            subst hs
            subst he
            subst hw
            rw [List.cons_append, replayAux_save fs tmp1 tmp2 ext scopes a (l1 ++ l2) h2,
              ih l2 scopes s1 evs1 ws1 hr]
            cases hr2 : replayAux fs tmp1 tmp2 ext s1 l2 with
            | ok r2 => rcases r2 with ⟨s', evs', ws'⟩; simp
            | error e => simp
          | error e => rw [hr] at h; cases h
        · rw [replayAux_unknown fs tmp1 tmp2 ext scopes a l1 h0 h1 h2] at h
          cases h

theorem replayAux_ok_stack (fs : FS) (tmp1 tmp2 ext : String) :
    ∀ (l : List PyAction) (scopes s : List String) (evs : List Event) (ws : List Write),
      replayAux fs tmp1 tmp2 ext scopes l = .ok (s, evs, ws) →
      s = specScopesFrom scopes l := by
  intro l
  induction l with
  | nil =>
    intro scopes s evs ws h
    rw [replayAux_nil] at h
    simp only [Except.ok.injEq, Prod.mk.injEq] at h
    obtain ⟨hs, he, hw⟩ := h
    subst hs
    subst he
    subst hw
    rfl
  | cons a l ih =>
    intro scopes s evs ws h
    by_cases h0 : a.type = ENTER_SCOPE
    · rw [replayAux_enter fs tmp1 tmp2 ext scopes a l h0] at h
      cases hr : replayAux fs tmp1 tmp2 ext (scopes ++ [a.name]) l with
      | ok r =>
        rcases r with ⟨s1, evs1, ws1⟩
        rw [hr] at h
        simp only [Except.ok.injEq, Prod.mk.injEq] at h
        obtain ⟨hs, he, hw⟩ := h
        subst hs
        subst he
        subst hw
        rw [specScopesFrom, List.foldl_cons]
        have hstep : specStep scopes a = scopes ++ [a.name] := by simp [specStep, h0]
        rw [hstep]
        exact ih (scopes ++ [a.name]) s1 evs1 ws1 hr
      | error e => rw [hr] at h; cases h
    · by_cases h1 : a.type = EXIT_SCOPE
      · cases scopes with
        | nil => rw [replayAux_exit_nil fs tmp1 tmp2 ext a l h1] at h; cases h
        | cons s0 ss =>
          rw [replayAux_exit_cons fs tmp1 tmp2 ext s0 ss a l h1] at h
          rw [specScopesFrom, List.foldl_cons]
          have hstep : specStep (s0 :: ss) a = (s0 :: ss).dropLast := by
            rw [specStep, if_neg h0, if_pos h1]
          rw [hstep]
          exact ih (s0 :: ss).dropLast s evs ws h
      · by_cases h2 : a.type = SAVE_MAT
        · rw [replayAux_save fs tmp1 tmp2 ext scopes a l h2] at h
          cases hr : replayAux fs tmp1 tmp2 ext scopes l with
          | ok r =>
            rcases r with ⟨s1, evs1, ws1⟩
            rw [hr] at h
            simp only [Except.ok.injEq, Prod.mk.injEq] at h
            obtain ⟨hs, he, hw⟩ := h
            subst hs
            subst he
            subst hw
            rw [specScopesFrom, List.foldl_cons]
            have hstep : specStep scopes a = scopes := by simp [specStep, h0, h1]
            rw [hstep]
            exact ih scopes s1 evs1 ws1 hr
          | error e => rw [hr] at h; cases h
        · rw [replayAux_unknown fs tmp1 tmp2 ext scopes a l h0 h1 h2] at h
          cases h

theorem replayAux_ok_of_balanced (fs : FS) (tmp1 tmp2 ext : String) :
    ∀ (l : List PyAction) (scopes : List String), validFlow l →
      (∀ n, exitCount (l.take n) ≤ enterCount (l.take n) + scopes.length) →
      ∃ s evs ws, replayAux fs tmp1 tmp2 ext scopes l = .ok (s, evs, ws) := by
  intro l
  induction l with
  | nil => intro scopes _ _; exact ⟨scopes, [], [], rfl⟩
  | cons a l ih =>
    intro scopes hv hb
    have hvl : validFlow l := fun x hx => hv x (List.mem_cons_of_mem a hx)
    rcases hv a (List.mem_cons_self a l) with h0 | h1 | h2
    · have hb' : ∀ n,
          exitCount (l.take n) ≤ enterCount (l.take n) + (scopes ++ [a.name]).length := by
        intro n
        have hx := hb (n + 1)
        rw [List.take_succ_cons] at hx
        simp [enterCount, exitCount, List.countP_cons, h0, ENTER_SCOPE, EXIT_SCOPE,
          List.length_append, List.length_cons, List.length_nil] at hx ⊢
        omega
      obtain ⟨s, evs, ws, hr⟩ := ih (scopes ++ [a.name]) hvl hb'
      refine ⟨s, Event.scope scopes.length a.name :: evs, ws, ?_⟩
      rw [replayAux_enter fs tmp1 tmp2 ext scopes a l h0, hr]
    · cases scopes with
      | nil =>
        exfalso
        have hx := hb 1
        rw [List.take_succ_cons, List.take_zero] at hx
        simp [enterCount, exitCount, List.countP_cons, h1, ENTER_SCOPE, EXIT_SCOPE] at hx
      | cons s0 ss =>
        have hb' : ∀ n,
            exitCount (l.take n) ≤ enterCount (l.take n) + (s0 :: ss).dropLast.length := by
          intro n
          have hx := hb (n + 1)
          rw [List.take_succ_cons] at hx
          simp [enterCount, exitCount, List.countP_cons, h1, ENTER_SCOPE, EXIT_SCOPE,
            List.length_dropLast, List.length_cons] at hx ⊢
          omega
        obtain ⟨s, evs, ws, hr⟩ := ih (s0 :: ss).dropLast hvl hb'
        refine ⟨s, evs, ws, ?_⟩
        rw [replayAux_exit_cons fs tmp1 tmp2 ext s0 ss a l h1, hr]
    · have hb' : ∀ n, exitCount (l.take n) ≤ enterCount (l.take n) + scopes.length := by
        intro n
        have hx := hb (n + 1)
        rw [List.take_succ_cons] at hx
        simp [enterCount, exitCount, List.countP_cons, h2, ENTER_SCOPE, EXIT_SCOPE,
          SAVE_MAT] at hx ⊢
        omega
      obtain ⟨s, evs, ws, hr⟩ := ih scopes hvl hb'
      refine ⟨s, (stepSave fs tmp1 tmp2 ext scopes a.name).1 ++ evs,
        (stepSave fs tmp1 tmp2 ext scopes a.name).2 ++ ws, ?_⟩
      rw [replayAux_save fs tmp1 tmp2 ext scopes a l h2, hr]

theorem replayAux_underflow_of_unbalanced (fs : FS) (tmp1 tmp2 ext : String) :
    ∀ (l : List PyAction) (scopes : List String), validFlow l →
      (∃ n, enterCount (l.take n) + scopes.length < exitCount (l.take n)) →
      replayAux fs tmp1 tmp2 ext scopes l = .error .underflow := by
  intro l
  induction l with
  | nil =>
    intro scopes _ hn
    obtain ⟨n, hn⟩ := hn
    simp [enterCount, exitCount] at hn
  | cons a l ih =>
    intro scopes hv hn
    obtain ⟨n, hn⟩ := hn
    have hvl : validFlow l := fun x hx => hv x (List.mem_cons_of_mem a hx)
    rcases hv a (List.mem_cons_self a l) with h0 | h1 | h2
    · cases n with
      | zero => simp [enterCount, exitCount] at hn
      | succ m =>
        rw [List.take_succ_cons] at hn
        have hn' : ∃ k,
            enterCount (l.take k) + (scopes ++ [a.name]).length < exitCount (l.take k) := by
          refine ⟨m, ?_⟩
          simp [enterCount, exitCount, List.countP_cons, h0, ENTER_SCOPE, EXIT_SCOPE,
            List.length_append, List.length_cons, List.length_nil] at hn ⊢
          omega
        have hr := ih (scopes ++ [a.name]) hvl hn'
        rw [replayAux_enter fs tmp1 tmp2 ext scopes a l h0, hr]
    · cases scopes with
      | nil => exact replayAux_exit_nil fs tmp1 tmp2 ext a l h1
      | cons s0 ss =>
        cases n with
        | zero => simp [enterCount, exitCount] at hn
        | succ m =>
          rw [List.take_succ_cons] at hn
          have hn' : ∃ k,
              enterCount (l.take k) + (s0 :: ss).dropLast.length < exitCount (l.take k) := by
            refine ⟨m, ?_⟩
            simp [enterCount, exitCount, List.countP_cons, h1, ENTER_SCOPE, EXIT_SCOPE,
              List.length_dropLast, List.length_cons] at hn ⊢
            omega
          have hr := ih (s0 :: ss).dropLast hvl hn'
          rw [replayAux_exit_cons fs tmp1 tmp2 ext s0 ss a l h1, hr]
    · cases n with
      | zero => simp [enterCount, exitCount] at hn
      | succ m =>
        rw [List.take_succ_cons] at hn
        have hn' : ∃ k, enterCount (l.take k) + scopes.length < exitCount (l.take k) := by
          refine ⟨m, ?_⟩
          simp [enterCount, exitCount, List.countP_cons, h2, ENTER_SCOPE, EXIT_SCOPE,
            SAVE_MAT] at hn ⊢
          omega
        have hr := ih scopes hvl hn'
        rw [replayAux_save fs tmp1 tmp2 ext scopes a l h2, hr]

theorem replayAux_ok_or_underflow (fs : FS) (tmp1 tmp2 ext : String) :
    ∀ (l : List PyAction) (scopes : List String), validFlow l →
      (∃ r, replayAux fs tmp1 tmp2 ext scopes l = .ok r) ∨
        replayAux fs tmp1 tmp2 ext scopes l = .error .underflow := by
  intro l
  induction l with
  | nil => intro scopes _; exact Or.inl ⟨(scopes, [], []), rfl⟩
  | cons a l ih =>
    intro scopes hv
    have hvl : validFlow l := fun x hx => hv x (List.mem_cons_of_mem a hx)
    rcases hv a (List.mem_cons_self a l) with h0 | h1 | h2
    · rcases ih (scopes ++ [a.name]) hvl with ⟨⟨s, evs, ws⟩, hr⟩ | hr
      · exact Or.inl ⟨(s, Event.scope scopes.length a.name :: evs, ws),
          by rw [replayAux_enter fs tmp1 tmp2 ext scopes a l h0, hr]⟩
      · exact Or.inr (by rw [replayAux_enter fs tmp1 tmp2 ext scopes a l h0, hr])
    · cases scopes with
      | nil => exact Or.inr (replayAux_exit_nil fs tmp1 tmp2 ext a l h1)
      | cons s0 ss =>
        rcases ih (s0 :: ss).dropLast hvl with ⟨r, hr⟩ | hr
        · exact Or.inl ⟨r, by rw [replayAux_exit_cons fs tmp1 tmp2 ext s0 ss a l h1, hr]⟩
        · exact Or.inr (by rw [replayAux_exit_cons fs tmp1 tmp2 ext s0 ss a l h1, hr])
    · rcases ih scopes hvl with ⟨⟨s, evs, ws⟩, hr⟩ | hr
      · exact Or.inl ⟨(s, (stepSave fs tmp1 tmp2 ext scopes a.name).1 ++ evs,
          (stepSave fs tmp1 tmp2 ext scopes a.name).2 ++ ws),
          by rw [replayAux_save fs tmp1 tmp2 ext scopes a l h2, hr]⟩
      · exact Or.inr (by rw [replayAux_save fs tmp1 tmp2 ext scopes a l h2, hr])

/-! ## Per-entry invariants -/

theorem fileStorageOpenWrite_tuple (elems : List String) :
    fileStorageOpenWrite (.tuple elems) = none := rfl

theorem tryCompare_writes_nil (tmp1 ext : String) (scopes : List String)
    (name : String) (m1 m2 : List ℚ) :
    (tryCompare tmp1 ext scopes name m1 m2).2 = [] := by
  unfold tryCompare
  cases hnd : npAbsDiff m2 m1 with
  | none => rfl
  | some diff =>
    cases diff with
    | nil => rfl
    | cons x xs =>
      dsimp only
      cases classify (x :: xs).sum <;> rfl

theorem tryCompare_events_ne_nil (tmp1 ext : String) (scopes : List String)
    (name : String) (m1 m2 : List ℚ) :
    (tryCompare tmp1 ext scopes name m1 m2).1 ≠ [] := by
  unfold tryCompare
  cases hnd : npAbsDiff m2 m1 with
  | none => simp
  | some diff =>
    cases diff with
    | nil => simp
    | cons x xs =>
      dsimp only
      cases classify (x :: xs).sum <;> simp [fileStorageOpenWrite]

theorem stepSave_writes_nil (fs : FS) (tmp1 tmp2 ext : String)
    (scopes : List String) (name : String) :
    (stepSave fs tmp1 tmp2 ext scopes name).2 = [] := by
  unfold stepSave
  dsimp only
  split
  · cases fs.load (entryPath tmp1 scopes name ext) with
    | none => rfl
    | some m1 =>
      cases fs.load (entryPath tmp2 scopes name ext) with
      | none => rfl
      | some m2 => exact tryCompare_writes_nil tmp1 ext scopes name m1 m2
  · rfl

theorem stepSave_events_ne_nil (fs : FS) (tmp1 tmp2 ext : String)
    (scopes : List String) (name : String) :
    (stepSave fs tmp1 tmp2 ext scopes name).1 ≠ [] := by
  unfold stepSave
  dsimp only
  split
  · cases fs.load (entryPath tmp1 scopes name ext) with
    | none => simp
    | some m1 =>
      cases fs.load (entryPath tmp2 scopes name ext) with
      | none => simp
      | some m2 => exact tryCompare_events_ne_nil tmp1 ext scopes name m1 m2
  · simp

theorem replayAux_ok_events_length (fs : FS) (tmp1 tmp2 ext : String) :
    ∀ (l : List PyAction) (scopes s : List String) (evs : List Event) (ws : List Write),
      replayAux fs tmp1 tmp2 ext scopes l = .ok (s, evs, ws) →
      l.countP (fun a => ¬ a.type = EXIT_SCOPE) ≤ evs.length := by
  intro l
  induction l with
  | nil =>
    intro scopes s evs ws h
    rw [replayAux_nil] at h
    simp only [Except.ok.injEq, Prod.mk.injEq] at h
    obtain ⟨hs, he, hw⟩ := h
    subst he
    simp
  | cons a l ih =>
    intro scopes s evs ws h
    by_cases h0 : a.type = ENTER_SCOPE
    · rw [replayAux_enter fs tmp1 tmp2 ext scopes a l h0] at h
      cases hr : replayAux fs tmp1 tmp2 ext (scopes ++ [a.name]) l with
      | ok r =>
        rcases r with ⟨s1, evs1, ws1⟩
        rw [hr] at h
        simp only [Except.ok.injEq, Prod.mk.injEq] at h
        obtain ⟨hs, he, hw⟩ := h
        subst he
        have := ih (scopes ++ [a.name]) s1 evs1 ws1 hr
        simp [List.countP_cons, h0, ENTER_SCOPE, EXIT_SCOPE] at this ⊢
        omega
      | error e => rw [hr] at h; cases h
    · by_cases h1 : a.type = EXIT_SCOPE
      · cases scopes with
        | nil => rw [replayAux_exit_nil fs tmp1 tmp2 ext a l h1] at h; cases h
        | cons s0 ss =>
          rw [replayAux_exit_cons fs tmp1 tmp2 ext s0 ss a l h1] at h
          have := ih (s0 :: ss).dropLast s evs ws h
          simp [List.countP_cons, h1, EXIT_SCOPE] at this ⊢
          omega
      · by_cases h2 : a.type = SAVE_MAT
        · rw [replayAux_save fs tmp1 tmp2 ext scopes a l h2] at h
          cases hr : replayAux fs tmp1 tmp2 ext scopes l with
          | ok r =>
            rcases r with ⟨s1, evs1, ws1⟩
            rw [hr] at h
            simp only [Except.ok.injEq, Prod.mk.injEq] at h
            obtain ⟨hs, he, hw⟩ := h
            subst he
            have hlen := ih scopes s1 evs1 ws1 hr
            have hne := stepSave_events_ne_nil fs tmp1 tmp2 ext scopes a.name
            have hpos : 1 ≤ (stepSave fs tmp1 tmp2 ext scopes a.name).1.length :=
              List.length_pos.mpr hne
            simp [List.countP_cons, h2, SAVE_MAT, EXIT_SCOPE, List.length_append] at hlen ⊢
            omega
          | error e => rw [hr] at h; cases h
        · rw [replayAux_unknown fs tmp1 tmp2 ext scopes a l h0 h1 h2] at h
          cases h

/-! ## Arithmetic facts about the absolute difference -/

theorem absDiff_self (m : List ℚ) :
    (List.zipWith (fun b a => b - a) m m).map qAbs = List.replicate m.length 0 := by
  induction m with
  | nil => rfl
  | cons x xs ih =>
    simp only [List.zipWith_cons_cons, List.map_cons, List.length_cons,
      List.replicate_succ, ih, sub_self, List.cons.injEq]
    exact ⟨by simp [qAbs], trivial⟩

theorem npAbsDiff_self (m : List ℚ) :
    npAbsDiff m m = some (List.replicate m.length 0) := by
  unfold npAbsDiff
  rw [if_pos rfl, absDiff_self]

theorem stepSave_of_loaded (fs : FS) (t1 t2 ext : String) (scopes : List String)
    (name : String) (m1 m2 : List ℚ)
    (h1 : fs.isFile (entryPath t1 scopes name ext) = true)
    (h2 : fs.isFile (entryPath t2 scopes name ext) = true)
    (hl1 : fs.load (entryPath t1 scopes name ext) = some m1)
    (hl2 : fs.load (entryPath t2 scopes name ext) = some m2) :
    stepSave fs t1 t2 ext scopes name = tryCompare t1 ext scopes name m1 m2 := by
  simp only [stepSave]
  rw [h1, h2, hl1, hl2]
  simp

/-! ## Claim theorems -/

/-- C2: classification of the L1 distance follows strict-less-than boundary
semantics: `d < 0.001` is Identical, `0.001 ≤ d < 10` is Minor, `d ≥ 10` is
Major; in particular `d = 0.001` is Minor (not Identical) and `d = 10` is
Major (not Minor). -/
theorem classification_boundary_semantics (d : ℚ) :
    (classify d = .Identical ↔ d < 1 / 1000) ∧
    (classify d = .Minor ↔ 1 / 1000 ≤ d ∧ d < 10) ∧
    (classify d = .Major ↔ 10 ≤ d) ∧
    classify (1 / 1000) = .Minor ∧
    classify (10 : ℚ) = .Major := by
  have hb1 : ¬ ((1 : ℚ) / 1000 < 1 / 1000) := by norm_num
  have hb2 : ((1 : ℚ) / 1000) < 10 := by norm_num
  have hb3 : ¬ ((10 : ℚ) < 1 / 1000) := by norm_num
  have hb4 : ¬ ((10 : ℚ) < 10) := by norm_num
  refine ⟨?_, ?_, ?_, ?_, ?_⟩
  · unfold classify
    split_ifs with h1 h2 <;> simp_all <;> linarith
  · unfold classify
    split_ifs with h1 h2 <;> simp_all <;> linarith
  · unfold classify
    split_ifs with h1 h2 <;> simp_all <;> linarith
  · unfold classify
    rw [if_neg hb1, if_pos hb2]
  · unfold classify
    rw [if_neg hb3, if_neg hb4]

/-- C5: the parser takes the first line, trimmed, as the extension (an empty
extension is accepted), skips blank-after-trim lines, and classifies each
remaining line by its first character (`-` ExitScope ignoring the rest,
`+` EnterScope named by the trimmed remainder, anything else SaveEntry named
by the entire trimmed line), preserving line order. -/
theorem parser_first_line_ext_and_line_classification (first : String)
    (rest : List String) :
    (MatList.ofLines (first :: rest)).ext = pyStrip first ∧
    (MatList.ofLines (first :: rest)).flow = rest.filterMap specLineAction :=
  ⟨rfl, by simp only [MatList.ofLines, buildFlow_eq_filterMap]⟩

/-- C10: every action produced by the parser is EnterScope, ExitScope or
SaveMat, so replay of a parsed manifest can never raise the
"Unknown action type" exception. -/
theorem parser_actions_closed_no_unknown_type (lines : List String) (fs : FS)
    (t1 t2 : String) :
    validFlow (MatList.ofLines lines).flow ∧
    ∀ t : Nat, (MatList.ofLines lines).compare fs t1 t2 ≠ .error (.unknownType t) := by
  refine ⟨ofLines_valid lines, ?_⟩
  intro t hcontra
  unfold MatList.compare at hcontra
  rcases replayAux_ok_or_underflow fs t1 t2 (MatList.ofLines lines).ext
      (MatList.ofLines lines).flow [] (ofLines_valid lines) with ⟨⟨s, evs, ws⟩, hr⟩ | hr
  · rw [hr] at hcontra
    simp at hcontra
  · rw [hr] at hcontra
    simp at hcontra

/-- C4: with the parser's three action tags, replay completes without a
stack-underflow error exactly when no prefix of the action sequence has more
ExitScope than EnterScope actions; on any unbalanced manifest it fails
fatally with the uncaught pop-from-empty exception. -/
theorem balanced_iff_no_stack_underflow (m : MatList) (fs : FS) (t1 t2 : String)
    (hv : validFlow m.flow) :
    (balanced m.flow → ∃ r, m.compare fs t1 t2 = .ok r) ∧
    (¬ balanced m.flow → m.compare fs t1 t2 = .error .underflow) := by
  constructor
  · intro hb
    obtain ⟨s, evs, ws, hr⟩ := replayAux_ok_of_balanced fs t1 t2 m.ext m.flow [] hv
      (by intro n; simpa using hb n)
    refine ⟨(evs, ws), ?_⟩
    unfold MatList.compare
    rw [hr]
  · intro hb
    unfold balanced at hb
    push_neg at hb
    obtain ⟨n, hn⟩ := hb
    have hr := replayAux_underflow_of_unbalanced fs t1 t2 m.ext m.flow [] hv
      ⟨n, by simpa using hn⟩
    unfold MatList.compare
    rw [hr]

/-- Witness for C4 at a concrete balanced manifest. -/
theorem balanced_iff_no_stack_underflow_witness :
    ∃ r, (MatList.ofLines [".yml", "+g", "-"]).compare fsNoFiles "A" "B" = .ok r := by
  apply (balanced_iff_no_stack_underflow (MatList.ofLines [".yml", "+g", "-"])
    fsNoFiles "A" "B" (ofLines_valid _)).1
  intro n
  match n with
  | 0 => decide
  | 1 => decide
  | (k + 2) =>
    have hlen : (MatList.ofLines [".yml", "+g", "-"]).flow.length = 2 := by decide
    rw [List.take_of_length_le (by rw [hlen]; omega)]
    decide

/-- C7: when at least one of the two resolved files is missing, the entry
produces exactly the missing-file line naming both candidate paths, no load
or comparison and no write, and replay continues with the next action. -/
theorem missing_file_skips_and_continues (fs : FS) (t1 t2 ext : String)
    (scopes : List String) (name : String)
    (h : (fs.isFile (entryPath t1 scopes name ext) &&
          fs.isFile (entryPath t2 scopes name ext)) = false) :
    stepSave fs t1 t2 ext scopes name =
      ([.missing (entryPath t1 scopes name ext) (entryPath t2 scopes name ext)], []) ∧
    ∀ rest : List PyAction,
      replayAux fs t1 t2 ext scopes (⟨SAVE_MAT, name⟩ :: rest) =
        match replayAux fs t1 t2 ext scopes rest with
        | .ok (s, evs, ws) =>
          .ok (s, .missing (entryPath t1 scopes name ext)
            (entryPath t2 scopes name ext) :: evs, ws)
        | .error e => .error e := by
  have hstep : stepSave fs t1 t2 ext scopes name =
      ([.missing (entryPath t1 scopes name ext) (entryPath t2 scopes name ext)], []) := by
    simp only [stepSave]
    rw [h]
    rfl
  refine ⟨hstep, ?_⟩
  intro rest
  rw [replayAux_save fs t1 t2 ext scopes ⟨SAVE_MAT, name⟩ rest rfl]
  cases hr : replayAux fs t1 t2 ext scopes rest with
  | ok r => rcases r with ⟨s, evs, ws⟩; rw [hstep]; rfl
  | error e => rfl

/-- Witness for C7 at a concrete filesystem with no files. -/
theorem missing_file_skips_and_continues_witness :
    stepSave fsNoFiles "A" "B" ".yml" [] "a" =
      ([.missing (entryPath "A" [] "a" ".yml") (entryPath "B" [] "a" ".yml")], []) :=
  (missing_file_skips_and_continues fsNoFiles "A" "B" ".yml" [] "a" rfl).1

/-- C9 (amended): for identical NONEMPTY loaded arrays the distance is 0,
the entry is classified Identical and nothing is written; the empty pair
instead hits the numpy zero-size reduction error (see the counterexample). -/
theorem identical_nonempty_arrays_classified_identical (fs : FS)
    (t1 t2 ext : String) (scopes : List String) (name : String) (m : List ℚ)
    (h1 : fs.isFile (entryPath t1 scopes name ext) = true)
    (h2 : fs.isFile (entryPath t2 scopes name ext) = true)
    (hl1 : fs.load (entryPath t1 scopes name ext) = some m)
    (hl2 : fs.load (entryPath t2 scopes name ext) = some m)
    (hne : m ≠ []) :
    stepSave fs t1 t2 ext scopes name = ([.identical scopes.length name 0], []) := by
  obtain ⟨x, xs, rfl⟩ := List.exists_cons_of_ne_nil hne
  rw [stepSave_of_loaded fs t1 t2 ext scopes name (x :: xs) (x :: xs) h1 h2 hl1 hl2]
  unfold tryCompare
  rw [npAbsDiff_self]
  simp only [List.length_cons, List.replicate_succ]
  rw [show ((0 : ℚ) :: List.replicate xs.length 0).sum = 0 by simp]
  rw [show classify (0 : ℚ) = .Identical by norm_num [classify]]

/-- Witness for the amended C9 at a concrete identical nonempty pair. -/
theorem identical_nonempty_arrays_classified_identical_witness :
    stepSave fsIdentPair "A" "B" ".yml" [] "a" = ([.identical 0 "a" 0], []) :=
  identical_nonempty_arrays_classified_identical fsIdentPair "A" "B" ".yml" [] "a"
    [1, 2] rfl rfl rfl rfl (by decide)

/-- Counterexample to C9 as stated: two files whose loaded arrays are both
empty are element-for-element identical, yet the entry yields the per-entry
comparison-error line (`np.min` of a zero-size array raises) instead of
being classified Identical. -/
theorem empty_identical_arrays_error_cex :
    fsEmptyPair.load "A/a.yml" = some ([] : List ℚ) ∧
    fsEmptyPair.load "B/a.yml" = some ([] : List ℚ) ∧
    stepSave fsEmptyPair "A" "B" ".yml" [] "a" = ([.compareError "a.yml"], []) ∧
    (MatList.ofLines [".yml", "a"]).compare fsEmptyPair "A" "B" =
      .ok ([.compareError "a.yml"], []) := by
  refine ⟨rfl, rfl, rfl, ?_⟩
  rw [show MatList.ofLines [".yml", "a"] = ⟨".yml", [⟨SAVE_MAT, "a"⟩]⟩ from rfl,
    MatList.compare, replayAux_save fsEmptyPair "A" "B" ".yml" [] ⟨SAVE_MAT, "a"⟩ [] rfl,
    replayAux_nil]
  rfl

/-- C3 (amended): for entries whose files both exist and load with
mismatched element counts, a comparison-error line naming the relative path
is emitted, nothing is written and replay continues — unless numpy
broadcasting applies (one side has exactly one element) and the broadcast
comparison classifies Identical, in which case a green result line is
printed with no error (see the counterexample). -/
theorem mismatched_counts_error_amended (fs : FS) (t1 t2 ext : String)
    (scopes : List String) (name : String) (m1 m2 : List ℚ)
    (h1 : fs.isFile (entryPath t1 scopes name ext) = true)
    (h2 : fs.isFile (entryPath t2 scopes name ext) = true)
    (hl1 : fs.load (entryPath t1 scopes name ext) = some m1)
    (hl2 : fs.load (entryPath t2 scopes name ext) = some m2)
    (hlen : m1.length ≠ m2.length)
    (hexc : ∀ (x : ℚ) (xs : List ℚ), npAbsDiff m2 m1 = some (x :: xs) →
      classify (x :: xs).sum ≠ .Identical) :
    Event.compareError (relPathOf scopes name ext) ∈
      (stepSave fs t1 t2 ext scopes name).1 ∧
    (stepSave fs t1 t2 ext scopes name).2 = [] ∧
    ∀ rest : List PyAction,
      replayAux fs t1 t2 ext scopes (⟨SAVE_MAT, name⟩ :: rest) =
        match replayAux fs t1 t2 ext scopes rest with
        | .ok (s, evs, ws) =>
          .ok (s, (stepSave fs t1 t2 ext scopes name).1 ++ evs,
            (stepSave fs t1 t2 ext scopes name).2 ++ ws)
        | .error e => .error e := by
  refine ⟨?_, stepSave_writes_nil fs t1 t2 ext scopes name, ?_⟩
  · rw [stepSave_of_loaded fs t1 t2 ext scopes name m1 m2 h1 h2 hl1 hl2]
    unfold tryCompare
    cases hnd : npAbsDiff m2 m1 with
    | none => simp
    | some diff =>
      cases diff with
      | nil => simp
      | cons x xs =>
        dsimp only
        rcases hcl : classify (x :: xs).sum with _ | _ | _
        · exact absurd hcl (hexc x xs hnd)
        · simp [fileStorageOpenWrite]
        · simp [fileStorageOpenWrite]
  · intro rest
    exact replayAux_save fs t1 t2 ext scopes ⟨SAVE_MAT, name⟩ rest rfl

/-- Witness for the amended C3 at a concrete broadcast pair `[0]` vs `[3,4]`
(lengths 1 and 2, broadcast distance 7). -/
theorem mismatched_counts_error_amended_witness :
    Event.compareError "a.yml" ∈ (stepSave fsBroadcastFar "A" "B" ".yml" [] "a").1 ∧
    (stepSave fsBroadcastFar "A" "B" ".yml" [] "a").2 = [] := by
  have h := mismatched_counts_error_amended fsBroadcastFar "A" "B" ".yml" [] "a"
    [0] [3, 4] rfl rfl rfl rfl (by decide)
    (by
      intro x xs hnd
      have heval : npAbsDiff [3, 4] [0] = some [3, 4] := by
        norm_num [npAbsDiff, qAbs]
      rw [heval] at hnd
      simp only [Option.some.injEq, List.cons.injEq] at hnd
      obtain ⟨hx, hxs⟩ := hnd
      subst hx
      subst hxs
      norm_num [classify]
      decide)
  exact ⟨h.1, h.2.1⟩

/-- Counterexample to C3 as stated: `[5]` vs `[5,5]` have mismatched element
counts and both files exist and load, yet numpy broadcasting makes the
comparison succeed with distance 0 — the entry is reported Identical and no
comparison-error diagnostic is emitted. -/
theorem broadcast_identical_no_error_cex :
    fsBroadcastSame.load "A/a.yml" = some [5] ∧
    fsBroadcastSame.load "B/a.yml" = some [5, 5] ∧
    ([5] : List ℚ).length ≠ ([5, 5] : List ℚ).length ∧
    stepSave fsBroadcastSame "A" "B" ".yml" [] "a" = ([.identical 0 "a" 0], []) ∧
    Event.compareError "a.yml" ∉ (stepSave fsBroadcastSame "A" "B" ".yml" [] "a").1 := by
  have hs : stepSave fsBroadcastSame "A" "B" ".yml" [] "a" =
      ([.identical 0 "a" 0], []) := by
    rw [stepSave_of_loaded fsBroadcastSame "A" "B" ".yml" [] "a" [5] [5, 5]
      rfl rfl rfl rfl]
    unfold tryCompare
    norm_num [npAbsDiff, qAbs, classify, relPathOf, osPathJoin, osJoin2,
      headIsSlash, lastIsSlash]
  refine ⟨rfl, rfl, by decide, hs, ?_⟩
  rw [hs]
  decide

/-- C1 (code bug): the diff-artifact write never happens.  The source line
`diff_file = os.path.join(diff_dir, mat_name + self.ext),` ends with a
comma, making `diff_file` a 1-tuple, so `cv2.FileStorage(diff_file, ...)`
raises `TypeError` inside the per-entry `try`; generally no entry ever
records a write, and on the spec's own end-to-end scenario (`[0,0]` vs
`[5,5]`, distance 10, Major) the red result line is followed by a
comparison-error line and `diff/a.yml` is never written. -/
theorem diff_artifact_never_written_bug :
    (∀ (fs : FS) (t1 t2 ext : String) (scopes : List String) (name : String),
      (stepSave fs t1 t2 ext scopes name).2 = []) ∧
    (MatList.ofLines [".yml", "a"]).compare fsMajorPair "A" "B" =
      .ok ([Event.major 0 "a" 10 5 5 5 5 0, Event.compareError "a.yml"], []) := by
  refine ⟨stepSave_writes_nil, ?_⟩
  have hs : stepSave fsMajorPair "A" "B" ".yml" [] "a" =
      ([Event.major 0 "a" 10 5 5 5 5 0, Event.compareError "a.yml"], []) := by
    rw [stepSave_of_loaded fsMajorPair "A" "B" ".yml" [] "a" [0, 0] [5, 5]
      rfl rfl rfl rfl]
    unfold tryCompare
    norm_num [npAbsDiff, qAbs, npAverage, npMedian, npVariance, qSort, qInsert,
      qMin, qMax, classify, fileStorageOpenWrite, relPathOf, osPathJoin, osJoin2,
      headIsSlash, lastIsSlash, show ("a" ++ ".yml" : String) = "a.yml" from rfl]
  rw [show MatList.ofLines [".yml", "a"] = ⟨".yml", [⟨SAVE_MAT, "a"⟩]⟩ from rfl,
    MatList.compare, replayAux_save fsMajorPair "A" "B" ".yml" [] ⟨SAVE_MAT, "a"⟩ [] rfl,
    replayAux_nil]
  simp [hs]

/-- Counterexample to C8 as stated: a manifest with one EnterScope and one
ExitScope has two actions but the completed replay prints only the single
scope line — ExitScope prints nothing. -/
theorem exit_scope_prints_no_line_cex :
    (MatList.ofLines [".yml", "+g", "-"]).flow =
      [⟨ENTER_SCOPE, "g"⟩, ⟨EXIT_SCOPE, ""⟩] ∧
    (MatList.ofLines [".yml", "+g", "-"]).compare fsNoFiles "A" "B" =
      .ok ([Event.scope 0 "g"], []) ∧
    ([Event.scope 0 "g"] : List Event).length <
      (MatList.ofLines [".yml", "+g", "-"]).flow.length := by
  refine ⟨by decide, ?_, by decide⟩
  rfl

/-- C8 (amended): a completed replay prints at least one line per action
other than ExitScope — a scope line for each EnterScope and a result,
missing-file or error line for each SaveEntry; ExitScope prints nothing. -/
theorem one_line_per_non_exit_action (m : MatList) (fs : FS) (t1 t2 : String)
    (evs : List Event) (ws : List Write)
    (hok : m.compare fs t1 t2 = .ok (evs, ws)) :
    m.flow.countP (fun a => ¬ a.type = EXIT_SCOPE) ≤ evs.length := by
  unfold MatList.compare at hok
  cases hr : replayAux fs t1 t2 m.ext [] m.flow with
  | ok r =>
    rcases r with ⟨s, evs1, ws1⟩
    rw [hr] at hok
    simp only [Except.ok.injEq, Prod.mk.injEq] at hok
    obtain ⟨he, hw⟩ := hok
    subst he
    exact replayAux_ok_events_length fs t1 t2 m.ext m.flow [] s evs1 ws1 hr
  | error e => rw [hr] at hok; cases hok

/-- Witness for the amended C8 on a one-entry manifest whose file is
missing: one action that is not ExitScope, one printed line. -/
theorem one_line_per_non_exit_action_witness :
    (MatList.ofLines [".yml", "a"]).flow.countP (fun a => ¬ a.type = EXIT_SCOPE) ≤
      ([Event.missing "A/a.yml" "B/a.yml"] : List Event).length :=
  one_line_per_non_exit_action (MatList.ofLines [".yml", "a"]) fsNoFiles "A" "B"
    [Event.missing "A/a.yml" "B/a.yml"] [] rfl

/-- C6: for a SaveEntry action replayed after a balanced prefix, the
replayer's stack at that moment is the spec-level fold of the prefix, and
the candidate paths it examines are `join(root, stack_elements...,
name + extension)` for each root, with the extension concatenated onto the
name rather than added as a path segment. -/
theorem save_entry_paths_from_scope_stack (fs : FS) (t1 t2 ext : String)
    (pre post : List PyAction) (name : String)
    (hv : validFlow pre) (hb : balanced pre) :
    entryPath t1 (specScopes pre) name ext =
      osPathJoin (t1 :: (specScopes pre ++ [name ++ ext])) ∧
    entryPath t2 (specScopes pre) name ext =
      osPathJoin (t2 :: (specScopes pre ++ [name ++ ext])) ∧
    ∃ evs ws,
      replayAux fs t1 t2 ext [] pre = .ok (specScopes pre, evs, ws) ∧
      (replayAux fs t1 t2 ext [] (pre ++ ⟨SAVE_MAT, name⟩ :: post) =
        match replayAux fs t1 t2 ext (specScopes pre) (⟨SAVE_MAT, name⟩ :: post) with
        | .ok (s', evs', ws') => .ok (s', evs ++ evs', ws ++ ws')
        | .error e => .error e) ∧
      (replayAux fs t1 t2 ext (specScopes pre) (⟨SAVE_MAT, name⟩ :: post) =
        match replayAux fs t1 t2 ext (specScopes pre) post with
        | .ok (s', evs', ws') =>
          .ok (s', (stepSave fs t1 t2 ext (specScopes pre) name).1 ++ evs',
            (stepSave fs t1 t2 ext (specScopes pre) name).2 ++ ws')
        | .error e => .error e) := by
  obtain ⟨s, evs, ws, hr⟩ := replayAux_ok_of_balanced fs t1 t2 ext pre [] hv
    (by intro n; simpa using hb n)
  have hstack : s = specScopes pre :=
    replayAux_ok_stack fs t1 t2 ext pre [] s evs ws hr
  subst hstack
  refine ⟨rfl, rfl, evs, ws, hr, ?_, ?_⟩
  · exact replayAux_append_ok fs t1 t2 ext pre (⟨SAVE_MAT, name⟩ :: post) []
      (specScopes pre) evs ws hr
  · exact replayAux_save fs t1 t2 ext (specScopes pre) ⟨SAVE_MAT, name⟩ post rfl

/-- Witness for C6 with the one-scope prefix `+g` and entry `b`. -/
theorem save_entry_paths_from_scope_stack_witness :
    entryPath "A" (specScopes [⟨ENTER_SCOPE, "g"⟩]) "b" ".yml" =
      osPathJoin ("A" :: (specScopes [⟨ENTER_SCOPE, "g"⟩] ++ ["b" ++ ".yml"])) ∧
    entryPath "B" (specScopes [⟨ENTER_SCOPE, "g"⟩]) "b" ".yml" =
      osPathJoin ("B" :: (specScopes [⟨ENTER_SCOPE, "g"⟩] ++ ["b" ++ ".yml"])) ∧
    ∃ evs ws,
      replayAux fsNoFiles "A" "B" ".yml" [] [⟨ENTER_SCOPE, "g"⟩] =
        .ok (specScopes [⟨ENTER_SCOPE, "g"⟩], evs, ws) ∧
      (replayAux fsNoFiles "A" "B" ".yml" []
          ([⟨ENTER_SCOPE, "g"⟩] ++ ⟨SAVE_MAT, "b"⟩ :: []) =
        match replayAux fsNoFiles "A" "B" ".yml" (specScopes [⟨ENTER_SCOPE, "g"⟩])
            (⟨SAVE_MAT, "b"⟩ :: []) with
        | .ok (s', evs', ws') => .ok (s', evs ++ evs', ws ++ ws')
        | .error e => .error e) ∧
      (replayAux fsNoFiles "A" "B" ".yml" (specScopes [⟨ENTER_SCOPE, "g"⟩])
          (⟨SAVE_MAT, "b"⟩ :: []) =
        match replayAux fsNoFiles "A" "B" ".yml" (specScopes [⟨ENTER_SCOPE, "g"⟩]) [] with
        | .ok (s', evs', ws') =>
          .ok (s', (stepSave fsNoFiles "A" "B" ".yml"
              (specScopes [⟨ENTER_SCOPE, "g"⟩]) "b").1 ++ evs',
            (stepSave fsNoFiles "A" "B" ".yml"
              (specScopes [⟨ENTER_SCOPE, "g"⟩]) "b").2 ++ ws')
        | .error e => .error e) :=
  save_entry_paths_from_scope_stack fsNoFiles "A" "B" ".yml" [⟨ENTER_SCOPE, "g"⟩] [] "b"
    (by intro a ha; rw [List.mem_singleton] at ha; subst ha; left; rfl)
    (by
      intro n
      match n with
      | 0 => decide
      | (k + 1) =>
        rw [List.take_of_length_le (by simpa using Nat.succ_le_succ (Nat.zero_le k))]
        decide)
